import Mathlib

/-!
Shallow embedding of the smart_card_loader repository (format.py, segment.py,
intelhex.py, motorola_s_record.py, smart_card.py).

Python strings are modelled as `List Char`, Python `int` as `Nat` (all the
integers that occur are non-negative), and a Python method body that can raise
as a function returning `PRes σ`: on an exception the partially mutated object
state travels with the error, exactly as a raised exception leaves the mutated
`self` behind in Python.
-/

/-- Python exception classes that occur in the repository. `fileCorrupted` is
`FileCorruptedError` from format.py; the other constructors are the built-in
exception classes that the code can raise. -/
inductive PyErr where
  | fileCorrupted (msg : String)
  | notImplemented (msg : String)
  | keyError
  | valueError
  | indexError
  | attributeError
  | typeError
deriving DecidableEq, Repr

/-- A dynamically typed Python value: `IntelHex.start_address` holds the empty
string initially, an `int` after a type-03 record and a string after a
type-05 record. -/
inductive PyVal where
  | str (s : List Char)
  | int (n : Nat)
deriving DecidableEq, Repr

/-- Python `==` between the values a `start_address` field can hold: values of
different types compare unequal. -/
def PyVal.pyEq : PyVal → PyVal → Bool
  | .str a, .str b => a == b
  | .int a, .int b => a == b
  | _, _ => false

/-- segment.py: a Segment stores an address string and a data string. -/
structure Seg where
  address : List Char
  data : List Char
deriving DecidableEq, Repr

/-- Result of running a Python method body on an object state `σ`: either the
updated state, or a raised exception together with the state at the moment of
the raise (mutations made before the raise persist). -/
inductive PRes (σ : Type) where
  | ok (st : σ)
  | err (e : PyErr) (st : σ)
deriving DecidableEq, Repr

/-- Sequencing of method bodies: an exception propagates past the rest. -/
def PRes.bind {σ : Type} (r : PRes σ) (f : σ → PRes σ) : PRes σ :=
  match r with
  | .ok st => f st
  | .err e st => .err e st

/-- The exception classes caught (and then silently dropped: the handlers build
a `FileCorruptedError` without raising it) by the record-parsing loops:
`except IndexError`, `except KeyError`, `except ValueError`. -/
def swallowedErr : PyErr → Bool
  | .indexError => true
  | .keyError => true
  | .valueError => true
  | _ => false

/-! ### Hex-string primitives

These model Python's `int(s, 16)` and `f'{n:02X}' / {n:04X} / {n:08X}`
formatting on the inputs the repository feeds them (plain hex-digit strings;
the sign/whitespace/underscore forms that Python's `int` would also accept are
never produced by the code). -/

/-- The value of one hex digit, as accepted by `int(_, 16)`. -/
def hexDigitVal (c : Char) : Option Nat :=
  if '0' ≤ c ∧ c ≤ '9' then some (c.toNat - 48)
  else if 'A' ≤ c ∧ c ≤ 'F' then some (c.toNat - 55)
  else if 'a' ≤ c ∧ c ≤ 'f' then some (c.toNat - 87)
  else none

/-- Accumulating left-to-right evaluation of a hex-digit string. -/
def hexValCore : Nat → List Char → Option Nat
  | acc, [] => some acc
  | acc, c :: cs =>
    match hexDigitVal c with
    | none => none
    | some d => hexValCore (acc * 16 + d) cs

/-- `int(s, 16)`: `none` models the `ValueError` raised on an empty or
non-hex string. -/
def hexVal (s : List Char) : Option Nat :=
  match s with
  | [] => none
  | _ => hexValCore 0 s

/-- The uppercase hex digit for `n < 16` (as produced by `%X` formatting). -/
def hexDigitChar (n : Nat) : Char :=
  if n < 10 then Char.ofNat (48 + n) else Char.ofNat (55 + n)

/-- Digit-extraction loop for `f'{n:X}'`; the first argument is fuel that is
always large enough (one unit per recursion step, and the value shrinks by a
factor 16 each step). -/
def toHexUpperAux : Nat → Nat → List Char
  | 0, _ => []
  | _fuel + 1, n =>
    if n < 16 then [hexDigitChar n]
    else toHexUpperAux _fuel (n / 16) ++ [hexDigitChar (n % 16)]

/-- `f'{n:X}'`: minimal-width uppercase hex rendering. -/
def toHexUpper (n : Nat) : List Char :=
  toHexUpperAux (n + 1) n

/-- Left-pad with `'0'` to width `k`, as `0k` format padding does. -/
def padZero (k : Nat) (l : List Char) : List Char :=
  List.replicate (k - l.length) '0' ++ l

/-- `f'{n:02X}'`. -/
def byteToHex2 (n : Nat) : List Char := padZero 2 (toHexUpper n)

/-- `f'{n:04X}'`. -/
def hex4 (n : Nat) : List Char := padZero 4 (toHexUpper n)

/-- `f'{n:08X}'`: the 8-digit rendering used for Segment addresses. -/
def format08X (n : Nat) : List Char := padZero 8 (toHexUpper n)

/-- Hex rendering of a byte list, two digits per byte. -/
def bytesToHex (bs : List Nat) : List Char := bs.flatMap byteToHex2

/-- The successive two-character slices `record[i:i+2]` taken by the checksum
loops (`range(_, len(record), 2)`); a trailing odd character yields a
one-character slice, exactly as Python slicing does. -/
def chunk2 : List Char → List (List Char)
  | [] => []
  | [c] => [[c]]
  | a :: b :: rest => [a, b] :: chunk2 rest

/-- `l[a:b]` for non-negative bounds. -/
def pySlice (l : List Char) (a b : Nat) : List Char := (l.take b).drop a

/-- `l[a:-2]`. -/
def pySliceToNeg2 (l : List Char) (a : Nat) : List Char :=
  (l.take (l.length - 2)).drop a

/-- `l[-2:]`. -/
def pyLast2 (l : List Char) : List Char := l.drop (l.length - 2)

/-- Does `pat` occur at the head of `l`? -/
def matchesAt (pat l : List Char) : Bool := l.take pat.length == pat

/-- Python `str.find(pat)` (as an `Option`): index of the first occurrence. -/
def findSub (pat : List Char) : List Char → Option Nat
  | [] => if pat.length = 0 then some 0 else none
  | c :: rest =>
    if matchesAt pat (c :: rest) then some 0
    else (findSub pat rest).map (· + 1)

/-- Worker for `str.split(sep)` with non-empty `sep`; fuel shrinks by one per
step while at least one character is consumed, so it never runs out. -/
def splitOnSepAux (sep : List Char) : Nat → List Char → List Char → List (List Char)
  | 0, acc, _ => [acc.reverse]
  | _fuel + 1, acc, [] => [acc.reverse]
  | _fuel + 1, acc, c :: rest =>
    if matchesAt sep (c :: rest) then
      acc.reverse :: splitOnSepAux sep _fuel [] ((c :: rest).drop sep.length)
    else
      splitOnSepAux sep _fuel (c :: acc) rest

/-- Python `document.split(sep)` for a non-empty separator (the repository
always splits on the line-termination string, `'\n'` by default). -/
def splitOnSep (sep l : List Char) : List (List Char) :=
  splitOnSepAux sep (l.length + 1) [] l

/-- Chunking loop `data[i:i+n]`, `i += n` used by the compose direction. -/
def chunksOfAux (n : Nat) : Nat → List Char → List (List Char)
  | 0, _ => []
  | _, [] => []
  | _fuel + 1, l => l.take n :: chunksOfAux n _fuel (l.drop n)

/-- All `data[i:i+n]` slices for `i = 0, n, 2n, ...` while `i < len(data)`. -/
def chunksOf (n : Nat) (l : List Char) : List (List Char) :=
  chunksOfAux n (l.length + 1) l

/-! ### intelhex.py -/

namespace IntelHex

/-- The mutable fields of an `IntelHex` instance that parsing touches
(intelhex.py `__init__`, lines 33-55; `start_code` is the constant `':'` and
`end_of_file_line_number` is initialised but never used, so neither is carried
in the state). -/
structure St where
  record_length : Nat
  address : List Char
  data : List Char
  checksum : List Char
  segment_address : Nat
  segment_data : List Char
  lower_address : Nat
  data_collected : Nat
  start_address : PyVal
  end_of_file_reached : Bool
  segments : List Seg
  lines : List (List Char)
deriving DecidableEq, Repr

/-- The field values set by `IntelHex.__init__`. -/
def initSt : St :=
  { record_length := 0, address := [], data := [], checksum := []
    segment_address := 0, segment_data := [], lower_address := 0
    data_collected := 0, start_address := .str []
    end_of_file_reached := false, segments := [], lines := [] }

/-- `IntelHex._verify_checksum`: sum of `int(record[i:i+2], 16)` for
`i in range(1, len(record), 2)`, masked with `0xFF` and compared to 0.
`none` models the `ValueError` raised by `int` on a non-hex slice. -/
def verifyChecksum (record : List Char) : Option Bool :=
  match (chunk2 (record.drop 1)).mapM hexVal with
  | none => none
  | some vals => some ((vals.foldl (· + ·) 0) &&& 0xFF == 0)

/-- `IntelHex._calculate_checksum`: sum of the byte pairs of `record`, masked,
two's-complemented and rendered with `f'{_checksum:02X}'`; `none` models the
`ValueError` from a non-hex pair. -/
def calculateChecksum (record : List Char) : Option (List Char) :=
  match (chunk2 record).mapM hexVal with
  | none => none
  | some vals =>
    some (byteToHex2 (((((vals.foldl (· + ·) 0) &&& 0xFF) ^^^ 0xFF) + 1) &&& 0xFF))

/-- `IntelHex._parse`: slice the length/address/data/checksum fields
(offsets 1-3, 3-7, 9:-2, -2:), check the declared length against the payload
and verify the checksum. -/
def parseBase (record : List Char) (st : St) : PRes St :=
  match hexVal (pySlice record 1 3) with
  | none => .err .valueError st
  | some rl =>
    let st := { st with
      record_length := rl
      address := pySlice record 3 7
      data := pySliceToNeg2 record 9
      checksum := pyLast2 record }
    if st.data.length / 2 ≠ st.record_length then
      .err (.fileCorrupted "Record contains extra bytes") st
    else
      match verifyChecksum record with
      | none => .err .valueError st
      | some ok =>
        if ok then .ok st
        else .err (.fileCorrupted "Checksum mismatch. Record is corrupted") st

/-- The duplicated flush block (`if self.segment_data != '': self.segments.append(...)`)
that stores the in-progress run as a Segment addressed at
`segment_address + lower_address`. -/
def flushSegment (st : St) : St :=
  if st.segment_data ≠ [] then
    { st with segments := st.segments ++
        [⟨format08X (st.segment_address + st.lower_address), st.segment_data⟩] }
  else st

/-- `IntelHex._parse_data_record`. -/
def parseDataRecord (record : List Char) (st0 : St) : PRes St :=
  (parseBase record st0).bind fun st =>
    match hexVal st.address with
    | none => .err .valueError st
    | some record_address =>
      let st := if st.segment_data = [] then { st with lower_address := record_address } else st
      if record_address + st.record_length = st.lower_address then
        .ok { st with
          segment_data := st.data ++ st.segment_data
          lower_address := record_address
          data_collected := st.data_collected + st.record_length }
      else if st.lower_address + st.data_collected = record_address then
        .ok { st with
          segment_data := st.segment_data ++ st.data
          data_collected := st.data_collected + st.record_length }
      else if record_address + st.record_length < st.lower_address then
        .err (.notImplemented "TODO: Yet to be implemented") st
      else if st.lower_address + st.data_collected < record_address then
        .err (.notImplemented "TODO: Yet to be implemented") st
      else
        .err (.fileCorrupted "More than one data is stored on same address") st

/-- `IntelHex._parse_end_of_file_record`: flush the run, reset the segment
info (`_update_segment_info()` defaults) and mark end of file. -/
def parseEofRecord (record : List Char) (st0 : St) : PRes St :=
  (parseBase record st0).bind fun st =>
    .ok { flushSegment st with
      segment_address := 0, segment_data := [], lower_address := 0
      data_collected := 0, end_of_file_reached := true }

/-- `IntelHex._parse_extended_segment_address_record`: length must be 2; flush
the run, then install `int(data, 16) << 8` as the new segment address (the
flush happens before the `int` conversion, so a `ValueError` leaves the
flushed state behind). -/
def parseExtSegmentRecord (record : List Char) (st0 : St) : PRes St :=
  (parseBase record st0).bind fun st =>
    if st.record_length ≠ 2 then
      .err (.fileCorrupted "Record length must be 2 bytes") st
    else
      let st := flushSegment st
      match hexVal st.data with
      | none => .err .valueError st
      | some v =>
        .ok { st with segment_address := v <<< 8, segment_data := []
                      lower_address := 0, data_collected := 0 }

/-- `IntelHex._parse_extended_linear_address_record`: as type 02 but the new
segment address is `int(data, 16) << 16`. -/
def parseExtLinearRecord (record : List Char) (st0 : St) : PRes St :=
  (parseBase record st0).bind fun st =>
    if st.record_length ≠ 2 then
      .err (.fileCorrupted "Record length must be 2 bytes") st
    else
      let st := flushSegment st
      match hexVal st.data with
      | none => .err .valueError st
      | some v =>
        .ok { st with segment_address := v <<< 16, segment_data := []
                      lower_address := 0, data_collected := 0 }

/-- `IntelHex._parse_start_segment_address_record`: length must be 4; if a
start address exists it is compared with Python `==` against the payload
string — but it was stored as an `int`, so that comparison is always `False`
and the duplicate error is raised; otherwise store
`(int(data[:4],16) << 4) + int(data[4:],16)` and append an empty segment
addressed `f'{start:08X}'`. -/
def parseStartSegmentRecord (record : List Char) (st0 : St) : PRes St :=
  (parseBase record st0).bind fun st =>
    if st.record_length ≠ 4 then
      .err (.fileCorrupted "Record length must be 4 bytes") st
    else if !(st.start_address.pyEq (.str [])) then
      if st.start_address.pyEq (.str st.data) then .ok st
      else .err (.fileCorrupted "More than one start address found") st
    else
      match hexVal (st.data.take 4) with
      | none => .err .valueError st
      | some hi =>
        match hexVal (st.data.drop 4) with
        | none => .err .valueError st
        | some lo =>
          let sa := (hi <<< 4) + lo
          .ok { st with start_address := .int sa
                        segments := st.segments ++ [⟨format08X sa, []⟩] }

/-- `IntelHex._parse_start_linear_address_record`: length must be 4; a second
record with the same payload string returns silently, a different one raises;
otherwise the payload string becomes the start address and an empty segment
with that address string is appended. -/
def parseStartLinearRecord (record : List Char) (st0 : St) : PRes St :=
  (parseBase record st0).bind fun st =>
    if st.record_length ≠ 4 then
      .err (.fileCorrupted "Record length must be 4 bytes") st
    else if !(st.start_address.pyEq (.str [])) then
      if st.start_address.pyEq (.str st.data) then .ok st
      else .err (.fileCorrupted "More than one start address found") st
    else
      .ok { st with start_address := .str st.data
                    segments := st.segments ++ [⟨st.data, []⟩] }

/-- The body of the `try` block of `IntelHex.parse` for one record: check the
start code `record[0:1] == ':'`, look the type `record[7:9]` up in
`RECORD_IDENTIFIER` (a miss raises `KeyError`) and run the handler the
`eval`-based dispatch resolves. -/
def parseRecordStep (record : List Char) (st : St) : PRes St :=
  if pySlice record 0 1 ≠ [':'] then
    .err (.fileCorrupted "Start of a record not found") st
  else
    let ty := pySlice record 7 9
    if ty = ['0', '0'] then parseDataRecord record st
    else if ty = ['0', '1'] then parseEofRecord record st
    else if ty = ['0', '2'] then parseExtSegmentRecord record st
    else if ty = ['0', '3'] then parseStartSegmentRecord record st
    else if ty = ['0', '4'] then parseExtLinearRecord record st
    else if ty = ['0', '5'] then parseStartLinearRecord record st
    else .err .keyError st

/-- The record loop of `IntelHex.parse`: empty lines are skipped, the `except
IndexError / KeyError / ValueError` arms construct a `FileCorruptedError`
without raising it (so those exceptions are silently dropped and the loop
continues with the mutated state), every processed line is appended to
`self.lines` with its terminator, and the loop breaks once
`end_of_file_reached` is set. -/
def parseLines (t : List Char) : List (List Char) → St → PRes St
  | [], st => .ok st
  | record :: rest, st =>
    let step :=
      if record.isEmpty then PRes.ok st
      else
        match parseRecordStep record st with
        | .ok st1 => .ok st1
        | .err e st1 => if swallowedErr e then .ok st1 else .err e st1
    match step with
    | .err e st1 => .err e st1
    | .ok st1 =>
      let st2 := { st1 with lines := st1.lines ++ [record ++ t] }
      if st2.end_of_file_reached then .ok st2 else parseLines t rest st2

/-- `IntelHex.parse` on a fresh instance (`self.parsed` is `False`), handed
the document text the file adapter read: split on the line termination and
run the record loop. The final missing-end-of-file check constructs a
`FileCorruptedError` without raising it, so it has no effect and the collected
segments are returned regardless. -/
def parse (t document : List Char) : PRes St :=
  parseLines t (splitOnSep t document) initSt

/-- The Segment list the `parse` call returns, `none` when it raises. -/
def parseSegments (t document : List Char) : Option (List Seg) :=
  match parse t document with
  | .ok st => some st.segments
  | .err _ _ => none

/-- The exception a `parse` call raises, `none` when it returns normally. -/
def parseRaises (t document : List Char) : Option PyErr :=
  match parse t document with
  | .ok _ => none
  | .err e _ => some e

end IntelHex

/-! ### format.py -/

/-- A Python value passed to a constructor in this repository: a string, `None`
or a Segment list. -/
inductive PyObj where
  | pyStr (s : List Char)
  | pyNone
  | pySegs (l : List Seg)
deriving DecidableEq, Repr

/-- The fields `Format.__init__` sets. -/
structure FormatSt where
  line_termination : PyObj
  segments : List Seg
  lines : List (List Char)
  parsed : Bool
  composed : Bool
deriving DecidableEq, Repr

/-- A positional call of `Format.__init__(self, line_termination)`: the method
declares exactly one parameter besides `self`, so a call with any other number
of positional arguments raises `TypeError`. -/
def Format.initCall (args : List PyObj) : Except PyErr FormatSt :=
  match args with
  | [lt] => .ok { line_termination := lt, segments := [], lines := []
                  parsed := false, composed := false }
  | _ => .error .typeError

/-! ### motorola_s_record.py -/

namespace MotorolaSRecord

/-- `MotorolaSRecord.__init__(self, line_termination='\n', file_path=None,
segments=None)` immediately runs
`super(MotorolaSRecord, self).__init__(line_termination, file_path, segments)`;
the three-positional-argument call into the one-parameter `Format.__init__`
raises `TypeError`, so the rest of the initialiser (never reached) is not
modelled. -/
def init (line_termination file_path segments : PyObj) : Except PyErr FormatSt :=
  match Format.initCall [line_termination, file_path, segments] with
  | .error e => .error e
  | .ok base => .ok base

/-- The members the `SRecordStructure` enum actually declares
(motorola_s_record.py lines 14-18): `RECORD_TYPE = 0`, `RECORD_LENGTH = 2`,
`FIELD = 4`, `CHECKSUM = -2`. Any other attribute lookup raises
`AttributeError`. -/
def sRecordStructureMember (name : String) : Option Int :=
  if name = "RECORD_TYPE" then some 0
  else if name = "RECORD_LENGTH" then some 2
  else if name = "FIELD" then some 4
  else if name = "CHECKSUM" then some (-2)
  else none

/-- The body of the `try` block of `MotorolaSRecord.parse` for one record. Its
first statement is
`start_code = record[SRecordStructure.START_CODE:SRecordStructure.RECORD_LENGTH]`,
and `START_CODE` is not a member of `SRecordStructure`, so the attribute lookup
raises `AttributeError` before any character of the record is read (the
remainder of the method, which would also hit the missing `ADDRESS` and `DATA`
members, is unreachable and not modelled further). -/
def parseStep (_record : List Char) (st : IntelHex.St) : PRes IntelHex.St :=
  match sRecordStructureMember "START_CODE" with
  | none => .err .attributeError st
  | some _ => .err .attributeError st

/-- The record loop of `MotorolaSRecord.parse`: unlike Intel HEX there is no
empty-record guard, so the loop body runs for the very first element of the
split (which always exists). `AttributeError` is not among the caught
`IndexError / KeyError / ValueError`, so it propagates. -/
def parseLoop : List (List Char) → IntelHex.St → PRes IntelHex.St
  | [], st => .ok st
  | record :: rest, st =>
    match parseStep record st with
    | .ok st1 =>
      if st1.end_of_file_reached then .ok st1 else parseLoop rest st1
    | .err e st1 => if swallowedErr e then parseLoop rest st1 else .err e st1

/-- `MotorolaSRecord.parse` (the instance fields it reads mirror the Intel HEX
ones, so the same state record is used): split the document on the line
termination and run the loop. -/
def parse (t document : List Char) : PRes IntelHex.St :=
  parseLoop (splitOnSep t document) IntelHex.initSt

end MotorolaSRecord

/-! ### smart_card.py -/

namespace SmartCard

/-- `SmartCard.__init__(self, line_termination='\n', file_path=None,
segments=None)` likewise forwards all three arguments to the one-parameter
`Format.__init__`, raising `TypeError` before any field is set. -/
def init (line_termination file_path segments : PyObj) : Except PyErr FormatSt :=
  match Format.initCall [line_termination, file_path, segments] with
  | .error e => .error e
  | .ok base => .ok base

/-- The mutable fields of a `SmartCard` instance that parsing touches
(smart_card.py `__init__`, lines 28-48; `cla = '00'`, `comment = '//'` and
`page_size` are constants, and `self.lines` is only written, never read, by
`parse`). -/
structure St where
  p1 : List Char
  p2 : List Char
  le_or_lc : List Char
  data : List Char
  data_length : Nat
  segment_address : Nat
  segment_data : List Char
  lower_address : Nat
  data_collected : Nat
  start_address : List Char
  segments : List Seg
deriving DecidableEq, Repr

/-- The field values set by `SmartCard.__init__` (were it reachable). -/
def initSt : St :=
  { p1 := [], p2 := [], le_or_lc := [], data := [], data_length := 0
    segment_address := 0, segment_data := [], lower_address := 0
    data_collected := 0, start_address := [], segments := [] }

/-- `SmartCard._parse`: slice `p1` (4-6), `p2` (6-8), `le_or_lc` (8-10), set
`data_length = int(le_or_lc, 16)`, slice the data (10:), and check the data
length against `lc` when data is present. The literal braces in the error
message reproduce the source string, which lacks the `f` prefix. -/
def parseBase (command : List Char) (st0 : St) : PRes St :=
  let st := { st0 with
    p1 := pySlice command 4 6
    p2 := pySlice command 6 8
    le_or_lc := pySlice command 8 10 }
  match hexVal st.le_or_lc with
  | none => .err .valueError st
  | some dl =>
    let st := { st with data_length := dl, data := command.drop 10 }
    if st.data ≠ [] ∧ st.data.length / 2 ≠ dl then
      .err (.fileCorrupted "Invalid command: 0x\x7bself.le_or_lc\x7d byte of data expected") st
    else .ok st

/-- The duplicated flush block of smart_card.py, identical in shape to the
Intel HEX one. -/
def flushSegment (st : St) : St :=
  if st.segment_data ≠ [] then
    { st with segments := st.segments ++
        [⟨format08X (st.segment_address + st.lower_address), st.segment_data⟩] }
  else st

/-- `SmartCard._parse_set_high_address_command`: data must be 2 bytes; flush
the run, then install `int(data, 16) << 16` and clear the run data. -/
def parseSetHighAddress (command : List Char) (st0 : St) : PRes St :=
  (parseBase command st0).bind fun st =>
    if st.data_length ≠ 2 then
      .err (.fileCorrupted "Command length must be 2 bytes") st
    else
      let st := flushSegment st
      match hexVal st.data with
      | none => .err .valueError st
      | some v =>
        .ok { st with segment_address := v <<< 16, segment_data := [] }

/-- `SmartCard._parse_erase_command`: data must be 2 bytes; otherwise no
effect. -/
def parseErase (command : List Char) (st0 : St) : PRes St :=
  (parseBase command st0).bind fun st =>
    if st.data_length ≠ 2 then
      .err (.fileCorrupted "Command length must be 2 bytes") st
    else .ok st

/-- `SmartCard._parse_write_command`: the address is `int(p1 + p2, 16)` and
the merge logic is the same four-way address comparison as the Intel HEX data
record. -/
def parseWrite (command : List Char) (st0 : St) : PRes St :=
  (parseBase command st0).bind fun st =>
    match hexVal (st.p1 ++ st.p2) with
    | none => .err .valueError st
    | some addr =>
      let st := if st.segment_data = [] then { st with lower_address := addr } else st
      if addr + st.data_length = st.lower_address then
        .ok { st with
          segment_data := st.data ++ st.segment_data
          lower_address := addr
          data_collected := st.data_collected + st.data_length }
      else if st.lower_address + st.data_collected = addr then
        .ok { st with
          segment_data := st.segment_data ++ st.data
          data_collected := st.data_collected + st.data_length }
      else if addr + st.data_length < st.lower_address then
        .err (.notImplemented "TODO: Yet to be implemented") st
      else if st.lower_address + st.data_collected < addr then
        .err (.notImplemented "TODO: Yet to be implemented") st
      else
        .err (.fileCorrupted "More than one data is stored on same address") st

/-- `SmartCard._parse_set_start_command`: data must be 4 bytes, a start
address may only be recorded once; the payload string becomes the start
address and an empty segment with that address string is appended
immediately. -/
def parseSetStart (command : List Char) (st0 : St) : PRes St :=
  (parseBase command st0).bind fun st =>
    if st.data_length ≠ 4 then
      .err (.fileCorrupted "Command length must be 4 bytes") st
    else if st.start_address ≠ [] then
      .err (.fileCorrupted "More than one start address found") st
    else
      .ok { st with start_address := st.data
                    segments := st.segments ++ [⟨st.data, []⟩] }

/-- The body of the `try` block of `SmartCard.parse` for one line: skip blank
lines, truncate at an inline `//` comment, strip blanks, skip if nothing is
left, check the class byte against `'00'`, and dispatch on the INS byte via
`COMMAND_IDENTIFIER` (a miss raises `KeyError`). -/
def processLine (line : List Char) (st : St) : PRes St :=
  if line.length = 0 then .ok st
  else
    let line :=
      match findSub ['/', '/'] line with
      | some i => line.take i
      | none => line
    let command := line.filter (· != ' ')
    if command.length = 0 then .ok st
    else if pySlice command 0 2 ≠ ['0', '0'] then
      .err (.fileCorrupted "Class byte is invalid") st
    else
      let ins := pySlice command 2 4
      if ins = ['0', '1'] then parseSetHighAddress command st
      else if ins = ['0', '2'] then parseErase command st
      else if ins = ['0', '3'] then parseWrite command st
      else if ins = ['0', '4'] then parseSetStart command st
      else .err .keyError st

/-- The line loop of `SmartCard.parse`: the `except IndexError / KeyError /
ValueError` arms construct a `FileCorruptedError` without raising it, so those
exceptions are dropped and the loop continues with the mutated state. -/
def parseLoop : List (List Char) → St → PRes St
  | [], st => .ok st
  | line :: rest, st =>
    match processLine line st with
    | .ok st1 => parseLoop rest st1
    | .err e st1 => if swallowedErr e then parseLoop rest st1 else .err e st1

/-- `SmartCard._end_of_file`: flush the run and reset the accumulation. -/
def endOfFile (st : St) : St :=
  { flushSegment st with segment_address := 0, segment_data := [] }

/-- `SmartCard.parse` on the document text: split on the line termination,
run the line loop, then `_end_of_file`. -/
def parse (t document : List Char) : PRes St :=
  match parseLoop (splitOnSep t document) initSt with
  | .ok st => .ok (endOfFile st)
  | .err e st => .err e st

end SmartCard

/-! ### intelhex.py, compose direction -/

namespace IntelHex

/-- The instance state the compose path mutates: `lower_address` and
`self.lines`. -/
structure CSt where
  lower_address : Nat
  lines : List (List Char)
deriving DecidableEq, Repr

/-- `IntelHex._compose_data_record`: body
`f'{len//2:02X}{lower:04X}00{data}'`, bump `lower_address`, append
`':' + body + checksum + termination`. `none` models the `ValueError` that
`_calculate_checksum` raises on non-hex data and that propagates out of
`compose` (only `KeyError` is caught there, and the identifier table has every
key, so that arm is dead). -/
def composeDataRecord (t data : List Char) (st : CSt) : Option CSt :=
  let dl := data.length / 2
  let body := byteToHex2 dl ++ hex4 st.lower_address ++ ['0', '0'] ++ data
  match calculateChecksum body with
  | none => none
  | some ck =>
    some { lower_address := st.lower_address + dl
           lines := st.lines ++ [':' :: (body ++ ck ++ t)] }

/-- `IntelHex._compose_extended_linear_address_record`: body
`'020000' + '04' + address`. -/
def composeExtLinearRecord (t address : List Char) (st : CSt) : Option CSt :=
  let body := ['0', '2', '0', '0', '0', '0', '0', '4'] ++ address
  match calculateChecksum body with
  | none => none
  | some ck => some { st with lines := st.lines ++ [':' :: (body ++ ck ++ t)] }

/-- `IntelHex._compose_start_linear_address_record`: body
`'040000' + '05' + address`. -/
def composeStartLinearRecord (t address : List Char) (st : CSt) : Option CSt :=
  let body := ['0', '4', '0', '0', '0', '0', '0', '5'] ++ address
  match calculateChecksum body with
  | none => none
  | some ck => some { st with lines := st.lines ++ [':' :: (body ++ ck ++ t)] }

/-- `IntelHex._compose_end_of_file_record`: body `'000000' + '01'`, and the
appended line carries no line termination. -/
def composeEofRecord (st : CSt) : Option CSt :=
  let body := ['0', '0', '0', '0', '0', '0', '0', '1']
  match calculateChecksum body with
  | none => none
  | some ck => some { st with lines := st.lines ++ [':' :: (body ++ ck)] }

/-- The data-record loop of `IntelHex._compose_segment` over the
`MAX_DATA_LENGTH = 32`-character slices of the segment data. -/
def composeDataChunks (t : List Char) : List (List Char) → CSt → Option CSt
  | [], st => some st
  | c :: cs, st =>
    match composeDataRecord t c st with
    | none => none
    | some st1 => composeDataChunks t cs st1

/-- `IntelHex._compose_segment`: an empty-data segment becomes a start linear
address record carrying the segment's address string; otherwise
`lower_address` is set to the low 16 bits of `int(address, 16)`, an extended
linear address record carries the high bits, and the data follows in bounded
chunks. -/
def composeSegment (t : List Char) (seg : Seg) (st : CSt) : Option CSt :=
  if seg.data = [] then composeStartLinearRecord t seg.address st
  else
    match hexVal seg.address with
    | none => none
    | some addr =>
      let st := { st with lower_address := addr &&& 0xFFFF }
      match composeExtLinearRecord t (hex4 (addr >>> 16)) st with
      | none => none
      | some st1 => composeDataChunks t (chunksOf 32 seg.data) st1

/-- The segment loop of `IntelHex.compose`. -/
def composeSegs (t : List Char) : List Seg → CSt → Option CSt
  | [], st => some st
  | seg :: rest, st =>
    match composeSegment t seg st with
    | none => none
    | some st1 => composeSegs t rest st1

/-- `IntelHex.compose` on a fresh instance (`parsed = False`, `composed =
False`) given a Segment list: compose every segment, then the end-of-file
record, and return the collected lines. -/
def compose (t : List Char) (segments : List Seg) : Option (List (List Char)) :=
  match composeSegs t segments { lower_address := 0, lines := [] } with
  | none => none
  | some st =>
    match composeEofRecord st with
    | none => none
    | some st1 => some st1.lines

end IntelHex

/-! ### Facts about the hex primitives -/

theorem hexDigitVal_hexDigitChar {n : Nat} (h : n < 16) :
    hexDigitVal (hexDigitChar n) = some n := by
  have : ∀ m : Fin 16, hexDigitVal (hexDigitChar m.val) = some m.val := by decide
  exact this ⟨n, h⟩

theorem hexDigitChar_ne_zero {n : Nat} (h : n < 16) (h0 : n ≠ 0) :
    hexDigitChar n ≠ '0' := by
  have : ∀ m : Fin 16, m.val ≠ 0 → hexDigitChar m.val ≠ '0' := by decide
  exact this ⟨n, h⟩ h0

theorem toHexUpperAux_fuel : ∀ f g n, n < f → n < g →
    toHexUpperAux f n = toHexUpperAux g n := by
  intro f
  induction f with
  | zero => intro g n hf; omega
  | succ f ih =>
    intro g n hf hg
    match g with
    | 0 => omega
    | g + 1 =>
      show toHexUpperAux (f + 1) n = toHexUpperAux (g + 1) n
      rw [toHexUpperAux, toHexUpperAux]
      by_cases h16 : n < 16
      · simp [h16]
      · simp only [if_neg h16]
        have hdiv : n / 16 < n := Nat.div_lt_self (by omega) (by omega)
        rw [ih (n / 16) (by omega) (g := g) (by omega)]

theorem toHexUpper_unfold (n : Nat) :
    toHexUpper n =
      if n < 16 then [hexDigitChar n]
      else toHexUpper (n / 16) ++ [hexDigitChar (n % 16)] := by
  rw [toHexUpper, toHexUpperAux]
  by_cases h16 : n < 16
  · simp [h16]
  · simp only [if_neg h16]
    have hdiv : n / 16 < n := Nat.div_lt_self (by omega) (by omega)
    rw [toHexUpperAux_fuel n (n / 16 + 1) (n / 16) (by omega) (by omega)]
    rfl

theorem toHexUpper_head_ne_zero (n : Nat) (h : 0 < n) :
    ∃ c cs, toHexUpper n = c :: cs ∧ c ≠ '0' := by
  induction n using Nat.strong_induction_on with
  | _ n ih =>
    rw [toHexUpper_unfold]
    by_cases h16 : n < 16
    · exact ⟨hexDigitChar n, [], by simp [h16], hexDigitChar_ne_zero h16 (by omega)⟩
    · simp only [if_neg h16]
      have hdiv : n / 16 < n := Nat.div_lt_self (by omega) (by omega)
      obtain ⟨c, cs, hcs, hc⟩ := ih (n / 16) hdiv (by
        have : 16 ≤ n := by omega
        exact Nat.div_pos this (by omega))
      exact ⟨c, cs ++ [hexDigitChar (n % 16)], by rw [hcs]; rfl, hc⟩

theorem toHexUpper_length_le (k : Nat) (hk : 1 ≤ k) :
    ∀ n, n < 16 ^ k → (toHexUpper n).length ≤ k := by
  induction k with
  | zero => omega
  | succ k ih =>
    intro n hn
    rw [toHexUpper_unfold]
    by_cases h16 : n < 16
    · simp [h16]
    · simp only [if_neg h16, List.length_append, List.length_cons, List.length_nil]
      have hk1 : 1 ≤ k := by
        by_contra hc
        have hk0 : k = 0 := by omega
        subst hk0
        simp at hn
        omega
      have hdk : n / 16 < 16 ^ k := by
        rw [Nat.div_lt_iff_lt_mul (by omega)]
        calc n < 16 ^ (k + 1) := hn
          _ = 16 ^ k * 16 := pow_succ 16 k
      have := ih hk1 (n / 16) hdk
      omega

theorem lt_of_toHexUpper_length_le : ∀ n k, (toHexUpper n).length ≤ k → n < 16 ^ k := by
  intro n
  induction n using Nat.strong_induction_on with
  | _ n ih =>
    intro k hlen
    rw [toHexUpper_unfold] at hlen
    by_cases h16 : n < 16
    · simp [h16] at hlen
      calc n < 16 := h16
        _ = 16 ^ 1 := (pow_one 16).symm
        _ ≤ 16 ^ k := Nat.pow_le_pow_right (by omega) hlen
    · simp only [if_neg h16, List.length_append, List.length_cons, List.length_nil] at hlen
      have hdiv : n / 16 < n := Nat.div_lt_self (by omega) (by omega)
      have hd := ih (n / 16) hdiv (k - 1) (by omega)
      have hk : 1 ≤ k := by omega
      have : n < 16 * 16 ^ (k - 1) := by
        have := Nat.div_add_mod n 16
        have hm : n % 16 < 16 := Nat.mod_lt _ (by omega)
        nlinarith
      calc n < 16 * 16 ^ (k - 1) := this
        _ = 16 ^ k := by
          rw [← pow_succ']
          congr 1
          omega

theorem hexValCore_append (xs ys : List Char) : ∀ acc,
    hexValCore acc (xs ++ ys) = (hexValCore acc xs).bind (fun v => hexValCore v ys) := by
  induction xs with
  | nil => intro acc; rfl
  | cons c cs ih =>
    intro acc
    show hexValCore acc (c :: (cs ++ ys)) = ((hexValCore acc (c :: cs)).bind fun v => hexValCore v ys)
    simp only [hexValCore]
    cases hexDigitVal c with
    | none => rfl
    | some d => exact ih _

theorem byteToHex2_eq {n : Nat} (h : n < 256) :
    byteToHex2 n = [hexDigitChar (n / 16), hexDigitChar (n % 16)] := by
  rw [byteToHex2, toHexUpper_unfold]
  by_cases h16 : n < 16
  · have hd : n / 16 = 0 := Nat.div_eq_of_lt h16
    have hm : n % 16 = n := Nat.mod_eq_of_lt h16
    simp [h16, padZero, hd, hm, hexDigitChar]
  · have hq16 : n / 16 < 16 := by omega
    rw [if_neg h16, toHexUpper_unfold, if_pos hq16]
    rfl

theorem byteToHex2_length {n : Nat} (h : n < 256) : (byteToHex2 n).length = 2 := by
  rw [byteToHex2_eq h]; rfl

theorem hexValCore_byteToHex2 {n : Nat} (h : n < 256) (acc : Nat) :
    hexValCore acc (byteToHex2 n) = some (acc * 256 + n) := by
  rw [byteToHex2_eq h]
  simp only [hexValCore, hexDigitVal_hexDigitChar (show n / 16 < 16 by omega),
    hexDigitVal_hexDigitChar (Nat.mod_lt _ (show 0 < 16 by omega))]
  congr 1
  have := Nat.div_add_mod n 16
  omega

theorem hexVal_byteToHex2 {n : Nat} (h : n < 256) : hexVal (byteToHex2 n) = some n := by
  rw [byteToHex2_eq h]
  show hexValCore 0 _ = some n
  rw [← byteToHex2_eq h, hexValCore_byteToHex2 h]
  simp

theorem bytesToHex_append (a b : List Nat) :
    bytesToHex (a ++ b) = bytesToHex a ++ bytesToHex b := by
  simp [bytesToHex]

theorem bytesToHex_length {bs : List Nat} (h : ∀ b ∈ bs, b < 256) :
    (bytesToHex bs).length = 2 * bs.length := by
  induction bs with
  | nil => rfl
  | cons b rest ih =>
    show (byteToHex2 b ++ bytesToHex rest).length = _
    rw [List.length_append, byteToHex2_length (h b (by simp)),
      ih (fun x hx => h x (by simp [hx]))]
    simp [List.length_cons]
    ring

theorem chunk2_bytesToHex {bs : List Nat} (h : ∀ b ∈ bs, b < 256) :
    chunk2 (bytesToHex bs) = bs.map byteToHex2 := by
  induction bs with
  | nil => rfl
  | cons b rest ih =>
    have hb : b < 256 := h b (by simp)
    have : bytesToHex (b :: rest) = hexDigitChar (b / 16) :: hexDigitChar (b % 16) :: bytesToHex rest := by
      show byteToHex2 b ++ bytesToHex rest = _
      rw [byteToHex2_eq hb]
      rfl
    rw [this, chunk2, ih (fun x hx => h x (by simp [hx])), List.map_cons,
      byteToHex2_eq hb]

theorem mapM_hexVal_bytes {bs : List Nat} (h : ∀ b ∈ bs, b < 256) :
    (bs.map byteToHex2).mapM hexVal = some bs := by
  induction bs with
  | nil => rfl
  | cons b rest ih =>
    rw [List.map_cons, List.mapM_cons, hexVal_byteToHex2 (h b (by simp)),
      ih (fun x hx => h x (by simp [hx]))]
    rfl

/-! ### Checksum arithmetic -/

theorem xor_mod_two_pow (x y k : Nat) :
    (x ^^^ y) % 2 ^ k = (x % 2 ^ k) ^^^ (y % 2 ^ k) := by
  apply Nat.eq_of_testBit_eq
  intro i
  simp only [Nat.testBit_mod_two_pow, Nat.testBit_xor]
  by_cases h : i < k <;> simp [h]

theorem xor_255_mod (x : Nat) : (x ^^^ 255) % 256 = (x % 256) ^^^ 255 := by
  have h255 : (255 : Nat) % 256 = 255 := by norm_num
  have h256 : (256 : Nat) = 2 ^ 8 := by norm_num
  rw [h256, xor_mod_two_pow, ← h256, h255]

set_option maxRecDepth 8192 in
theorem xor_255_eq_sub {r : Nat} (h : r < 256) : r ^^^ 255 = 255 - r := by
  have : ∀ m : Fin 256, m.val ^^^ 255 = 255 - m.val := by decide
  exact this ⟨r, h⟩

theorem and_255_eq_mod (x : Nat) : x &&& 255 = x % 256 := by
  have h : (255 : Nat) = 2 ^ 8 - 1 := by norm_num
  rw [h, Nat.and_pow_two_sub_one_eq_mod]

/-- The checksum byte the composer produces from the byte values of a record
body, written as the formula of the spec:
`((sum XOR 0xFF) + 1) mod 256`. -/
def specChecksumByte (bs : List Nat) : Nat :=
  (((bs.foldl (· + ·) 0) ^^^ 0xFF) + 1) % 256

theorem specChecksumByte_lt (bs : List Nat) : specChecksumByte bs < 256 :=
  Nat.mod_lt _ (by omega)

theorem calculateChecksum_eq (record : List Char) (vals : List Nat)
    (h : (chunk2 record).mapM hexVal = some vals) :
    IntelHex.calculateChecksum record =
      some (byteToHex2 (((((vals.foldl (· + ·) 0) &&& 0xFF) ^^^ 0xFF) + 1) &&& 0xFF)) := by
  rw [IntelHex.calculateChecksum, h]

theorem verifyChecksum_eq (record : List Char) (vals : List Nat)
    (h : (chunk2 (record.drop 1)).mapM hexVal = some vals) :
    IntelHex.verifyChecksum record = some ((vals.foldl (· + ·) 0) &&& 0xFF == 0) := by
  rw [IntelHex.verifyChecksum, h]

theorem calculateChecksum_bytes {bs : List Nat} (h : ∀ b ∈ bs, b < 256) :
    IntelHex.calculateChecksum (bytesToHex bs) = some (byteToHex2 (specChecksumByte bs)) := by
  rw [calculateChecksum_eq (bytesToHex bs) bs (by rw [chunk2_bytesToHex h, mapM_hexVal_bytes h])]
  congr 1
  rw [specChecksumByte]
  have e1 : (0xFF : Nat) = 255 := by norm_num
  rw [e1, and_255_eq_mod, and_255_eq_mod,
    show ((bs.foldl (· + ·) 0) % 256) ^^^ 255 = ((bs.foldl (· + ·) 0) ^^^ 255) % 256 from
      (xor_255_mod _).symm]
  congr 1
  exact Nat.mod_add_mod _ _ _

theorem verifyChecksum_bytes {bs : List Nat} (h : ∀ b ∈ bs, b < 256) :
    IntelHex.verifyChecksum (':' :: bytesToHex bs) =
      some (decide ((bs.foldl (· + ·) 0) % 256 = 0)) := by
  rw [verifyChecksum_eq (':' :: bytesToHex bs) bs
    (by rw [List.drop_one, List.tail_cons, chunk2_bytesToHex h, mapM_hexVal_bytes h])]
  congr 1
  rw [and_255_eq_mod]
  by_cases hz : (bs.foldl (· + ·) 0) % 256 = 0 <;> simp [hz]

theorem verifyChecksum_roundTrip {bs : List Nat} (h : ∀ b ∈ bs, b < 256) :
    IntelHex.verifyChecksum
      (':' :: (bytesToHex bs ++ byteToHex2 (specChecksumByte bs))) = some true := by
  have hck : specChecksumByte bs < 256 := specChecksumByte_lt bs
  have hall : ∀ b ∈ bs ++ [specChecksumByte bs], b < 256 := by
    intro b hb
    rcases List.mem_append.mp hb with hb | hb
    · exact h b hb
    · simp at hb; omega
  have hb2 : bytesToHex bs ++ byteToHex2 (specChecksumByte bs) =
      bytesToHex (bs ++ [specChecksumByte bs]) := by
    rw [bytesToHex_append]
    simp [bytesToHex]
  rw [hb2, verifyChecksum_bytes hall]
  congr 1
  rw [List.foldl_append]
  show decide (((bs.foldl (· + ·) 0) + specChecksumByte bs) % 256 = 0) = true
  rw [decide_eq_true_iff]
  set s := bs.foldl (· + ·) 0 with hs
  have hr : s % 256 < 256 := Nat.mod_lt _ (by omega)
  have hform : specChecksumByte bs = ((255 - s % 256) + 1) % 256 := by
    rw [specChecksumByte, ← hs]
    have e1 : (0xFF : Nat) = 255 := by norm_num
    rw [e1, ← Nat.mod_add_mod, xor_255_mod, xor_255_eq_sub hr]
  rw [hform]
  omega

/-! ### A well-formed data record and how `_parse` reads it back -/

/-- A type-00 record for `addr` (< 2^16) carrying `payload`, with the checksum
the composer's formula produces: the concrete record text used to state the
accumulator properties of the spec. -/
def mkDataRecord (addr : Nat) (payload : List Nat) : List Char :=
  ':' :: (bytesToHex (payload.length :: addr / 256 :: addr % 256 :: 0 :: payload) ++
    byteToHex2 (specChecksumByte (payload.length :: addr / 256 :: addr % 256 :: 0 :: payload)))

theorem hexVal_cons (c : Char) (t : List Char) : hexVal (c :: t) = hexValCore 0 (c :: t) := rfl

theorem hexVal_two_bytes {hi lo : Nat} (hhi : hi < 256) (hlo : lo < 256) :
    hexVal (byteToHex2 hi ++ byteToHex2 lo) = some (hi * 256 + lo) := by
  have key : hexValCore 0 (byteToHex2 hi ++ byteToHex2 lo) = some (hi * 256 + lo) := by
    rw [hexValCore_append, hexValCore_byteToHex2 hhi 0]
    show hexValCore (0 * 256 + hi) (byteToHex2 lo) = _
    rw [hexValCore_byteToHex2 hlo]
    norm_num
  rw [byteToHex2_eq hhi]
  show hexVal (hexDigitChar (hi / 16) :: ([hexDigitChar (hi % 16)] ++ byteToHex2 lo)) = _
  rw [hexVal_cons]
  rw [show hexDigitChar (hi / 16) :: ([hexDigitChar (hi % 16)] ++ byteToHex2 lo) =
    byteToHex2 hi ++ byteToHex2 lo from by rw [byteToHex2_eq hhi]; rfl]
  exact key

theorem parseBase_mkDataRecord (st : IntelHex.St) (addr : Nat) (payload : List Nat)
    (haddr : addr < 65536) (hlen : payload.length < 256) (hb : ∀ b ∈ payload, b < 256) :
    IntelHex.parseBase (mkDataRecord addr payload) st =
      .ok { st with
        record_length := payload.length
        address := byteToHex2 (addr / 256) ++ byteToHex2 (addr % 256)
        data := bytesToHex payload
        checksum := byteToHex2 (specChecksumByte
          (payload.length :: addr / 256 :: addr % 256 :: 0 :: payload)) } := by
  have hhi : addr / 256 < 256 := by omega
  have hlo : addr % 256 < 256 := Nat.mod_lt _ (by omega)
  have e1 := byteToHex2_eq hlen
  have e2 := byteToHex2_eq hhi
  have e3 := byteToHex2_eq hlo
  have hckv : specChecksumByte (payload.length :: addr / 256 :: addr % 256 :: 0 :: payload) < 256 :=
    specChecksumByte_lt _
  set ck2 := byteToHex2 (specChecksumByte
    (payload.length :: addr / 256 :: addr % 256 :: 0 :: payload)) with hck2
  have hckl : ck2.length = 2 := byteToHex2_length hckv
  have hpayl : (bytesToHex payload).length = 2 * payload.length := bytesToHex_length hb
  have hrec : mkDataRecord addr payload =
      [':', hexDigitChar (payload.length / 16), hexDigitChar (payload.length % 16),
       hexDigitChar (addr / 256 / 16), hexDigitChar (addr / 256 % 16),
       hexDigitChar (addr % 256 / 16), hexDigitChar (addr % 256 % 16), '0', '0'] ++
      (bytesToHex payload ++ ck2) := by
    have e0 : byteToHex2 0 = ['0', '0'] := rfl
    show ':' :: (bytesToHex (payload.length :: addr / 256 :: addr % 256 :: 0 :: payload) ++ ck2) = _
    simp only [bytesToHex, List.flatMap_cons, e1, e2, e3, e0]
    simp
  have h1 : pySlice (mkDataRecord addr payload) 1 3 = byteToHex2 payload.length := by
    rw [hrec, e1]
    rfl
  have h2 : pySlice (mkDataRecord addr payload) 3 7 =
      byteToHex2 (addr / 256) ++ byteToHex2 (addr % 256) := by
    rw [hrec, e2, e3]
    rfl
  have hreclen : (mkDataRecord addr payload).length = 9 + (2 * payload.length + 2) := by
    rw [hrec]
    simp [hpayl, hckl]
    omega
  have h3 : pySliceToNeg2 (mkDataRecord addr payload) 9 = bytesToHex payload := by
    rw [pySliceToNeg2, hreclen, hrec]
    have hgoal : 9 + (2 * payload.length + 2) - 2 =
        ([':', hexDigitChar (payload.length / 16), hexDigitChar (payload.length % 16),
          hexDigitChar (addr / 256 / 16), hexDigitChar (addr / 256 % 16),
          hexDigitChar (addr % 256 / 16), hexDigitChar (addr % 256 % 16), '0', '0'] :
          List Char).length + 2 * payload.length := by
      simp
      omega
    rw [hgoal, List.take_append, List.take_append_of_le_length (by omega),
      List.take_of_length_le (by omega), List.drop_left' (by simp)]
  have h4 : pyLast2 (mkDataRecord addr payload) = ck2 := by
    rw [pyLast2, hreclen, hrec, ← List.append_assoc]
    have hgoal : 9 + (2 * payload.length + 2) - 2 =
        (([':', hexDigitChar (payload.length / 16), hexDigitChar (payload.length % 16),
          hexDigitChar (addr / 256 / 16), hexDigitChar (addr / 256 % 16),
          hexDigitChar (addr % 256 / 16), hexDigitChar (addr % 256 % 16), '0', '0'] :
          List Char) ++ bytesToHex payload).length := by
      simp [hpayl]
      omega
    rw [hgoal, List.drop_left]
  have hall : ∀ b ∈ payload.length :: addr / 256 :: addr % 256 :: 0 :: payload, b < 256 := by
    intro b hbm
    simp only [List.mem_cons] at hbm
    rcases hbm with rfl | rfl | rfl | rfl | hbm
    · exact hlen
    · exact hhi
    · exact hlo
    · omega
    · exact hb b hbm
  have h5 : IntelHex.verifyChecksum (mkDataRecord addr payload) = some true :=
    verifyChecksum_roundTrip hall
  have hdl : (bytesToHex payload).length / 2 = payload.length := by rw [hpayl]; omega
  rw [IntelHex.parseBase, h1, hexVal_byteToHex2 hlen]
  simp only [h2, h3, h4, h5, hdl]
  simp

/-- The record fields `_parse` leaves behind after reading
`mkDataRecord addr payload`. -/
def parsedFields (st : IntelHex.St) (addr : Nat) (payload : List Nat) : IntelHex.St :=
  { st with
    record_length := payload.length
    address := byteToHex2 (addr / 256) ++ byteToHex2 (addr % 256)
    data := bytesToHex payload
    checksum := byteToHex2 (specChecksumByte
      (payload.length :: addr / 256 :: addr % 256 :: 0 :: payload)) }

theorem parseBase_mkDataRecord' (st : IntelHex.St) (addr : Nat) (payload : List Nat)
    (haddr : addr < 65536) (hlen : payload.length < 256) (hb : ∀ b ∈ payload, b < 256) :
    IntelHex.parseBase (mkDataRecord addr payload) st = .ok (parsedFields st addr payload) :=
  parseBase_mkDataRecord st addr payload haddr hlen hb

theorem hexVal_addr_field {addr : Nat} (haddr : addr < 65536) :
    hexVal (byteToHex2 (addr / 256) ++ byteToHex2 (addr % 256)) = some addr := by
  rw [hexVal_two_bytes (by omega) (Nat.mod_lt _ (by omega))]
  congr 1
  have := Nat.div_add_mod addr 256
  omega

/-- `_parse_data_record` on a well-formed record while a run is in progress
(`segment_data` non-empty): the four-way address comparison of
intelhex.py lines 126-146, with the state the exception leaves behind made
explicit. -/
theorem parseDataRecord_cases (st : IntelHex.St) (addr : Nat) (payload : List Nat)
    (haddr : addr < 65536) (hlen : payload.length < 256) (hb : ∀ b ∈ payload, b < 256)
    (hrun : st.segment_data ≠ []) :
    IntelHex.parseDataRecord (mkDataRecord addr payload) st =
      (if addr + payload.length = st.lower_address then
        .ok { parsedFields st addr payload with
          segment_data := bytesToHex payload ++ st.segment_data
          lower_address := addr
          data_collected := st.data_collected + payload.length }
      else if st.lower_address + st.data_collected = addr then
        .ok { parsedFields st addr payload with
          segment_data := st.segment_data ++ bytesToHex payload
          data_collected := st.data_collected + payload.length }
      else if addr + payload.length < st.lower_address then
        .err (.notImplemented "TODO: Yet to be implemented") (parsedFields st addr payload)
      else if st.lower_address + st.data_collected < addr then
        .err (.notImplemented "TODO: Yet to be implemented") (parsedFields st addr payload)
      else
        .err (.fileCorrupted "More than one data is stored on same address")
          (parsedFields st addr payload)) := by
  simp only [IntelHex.parseDataRecord, parseBase_mkDataRecord' st addr payload haddr hlen hb,
    PRes.bind]
  rw [show (parsedFields st addr payload).address =
    byteToHex2 (addr / 256) ++ byteToHex2 (addr % 256) from rfl, hexVal_addr_field haddr]
  simp only [parsedFields, hrun]
  simp [hrun]

/-- `_parse_data_record` on a well-formed record when no run is in progress:
`lower_address` is first pointed at the record address, and the record then
extends the (empty) run in place. -/
theorem parseDataRecord_firstRun (st : IntelHex.St) (addr : Nat) (payload : List Nat)
    (haddr : addr < 65536) (hlen : payload.length < 256) (hb : ∀ b ∈ payload, b < 256)
    (hrun : st.segment_data = []) (hcol : st.data_collected = 0) (hpl : payload ≠ []) :
    IntelHex.parseDataRecord (mkDataRecord addr payload) st =
      .ok { parsedFields st addr payload with
        lower_address := addr
        segment_data := bytesToHex payload
        data_collected := payload.length } := by
  have hL : payload.length ≠ 0 := fun h => hpl (List.length_eq_zero.mp h)
  simp only [IntelHex.parseDataRecord, parseBase_mkDataRecord' st addr payload haddr hlen hb,
    PRes.bind]
  rw [show (parsedFields st addr payload).address =
    byteToHex2 (addr / 256) ++ byteToHex2 (addr % 256) from rfl, hexVal_addr_field haddr]
  simp only [parsedFields, hrun, hcol]
  simp [hL]

/-- The canonical end-of-file record text. -/
def eofRec : List Char := [':', '0', '0', '0', '0', '0', '0', '0', '1', 'F', 'F']

theorem parseBase_eofRec (st : IntelHex.St) :
    IntelHex.parseBase eofRec st =
      .ok { st with record_length := 0, address := ['0', '0', '0', '0'],
                    data := [], checksum := ['F', 'F'] } := by
  rw [IntelHex.parseBase,
    show hexVal (pySlice eofRec 1 3) = some 0 from rfl,
    show IntelHex.verifyChecksum eofRec = some true from rfl]
  norm_num [show pySlice eofRec 3 7 = ['0', '0', '0', '0'] from rfl,
    show pySliceToNeg2 eofRec 9 = [] from rfl,
    show pyLast2 eofRec = ['F', 'F'] from rfl]

/-- `_parse_end_of_file_record` on `:00000001FF` while a run is in progress:
the run is flushed into a Segment addressed
`f'{segment_address + lower_address:08X}'` and the accumulation is reset. -/
theorem parseEofRecord_run (st : IntelHex.St) (h : st.segment_data ≠ []) :
    IntelHex.parseEofRecord eofRec st =
      .ok { st with record_length := 0, address := ['0', '0', '0', '0'],
                    data := [], checksum := ['F', 'F'],
                    segment_address := 0, segment_data := [], lower_address := 0,
                    data_collected := 0, end_of_file_reached := true,
                    segments := st.segments ++
                      [⟨format08X (st.segment_address + st.lower_address), st.segment_data⟩] } := by
  simp only [IntelHex.parseEofRecord, parseBase_eofRec, PRes.bind, IntelHex.flushSegment]
  simp [h]

/-- Claim C4: accumulation merge correctness. Feeding the Intel HEX
accumulator a data record at address 0x100 with 4 payload bytes, then one at
0x104 with 4 payload bytes, then the end-of-file record, yields exactly one
Segment, addressed `00000100`, whose data is the two payloads concatenated in
address order; feeding the two data records in the reverse (prepend) order
yields the same single Segment. -/
theorem claim_C4_accumulation_merge (b1 b2 : List Nat)
    (h1 : b1.length = 4) (h2 : b2.length = 4)
    (hb1 : ∀ b ∈ b1, b < 256) (hb2 : ∀ b ∈ b2, b < 256) :
    ((IntelHex.parseDataRecord (mkDataRecord 256 b1) IntelHex.initSt).bind
        (IntelHex.parseDataRecord (mkDataRecord 260 b2))).bind
        (IntelHex.parseEofRecord eofRec) =
      .ok { IntelHex.initSt with
            address := ['0', '0', '0', '0'], checksum := ['F', 'F'],
            end_of_file_reached := true,
            segments := [⟨['0', '0', '0', '0', '0', '1', '0', '0'],
              bytesToHex b1 ++ bytesToHex b2⟩] } ∧
    ((IntelHex.parseDataRecord (mkDataRecord 260 b2) IntelHex.initSt).bind
        (IntelHex.parseDataRecord (mkDataRecord 256 b1))).bind
        (IntelHex.parseEofRecord eofRec) =
      .ok { IntelHex.initSt with
            address := ['0', '0', '0', '0'], checksum := ['F', 'F'],
            end_of_file_reached := true,
            segments := [⟨['0', '0', '0', '0', '0', '1', '0', '0'],
              bytesToHex b1 ++ bytesToHex b2⟩] } := by
  have hne1 : b1 ≠ [] := by intro hh; rw [hh] at h1; simp at h1
  have hne2 : b2 ≠ [] := by intro hh; rw [hh] at h2; simp at h2
  have hbh1 : bytesToHex b1 ≠ [] :=
    List.length_pos.mp (by rw [bytesToHex_length hb1, h1]; omega)
  have hbh2 : bytesToHex b2 ≠ [] :=
    List.length_pos.mp (by rw [bytesToHex_length hb2, h2]; omega)
  have hbh12 : bytesToHex b1 ++ bytesToHex b2 ≠ [] :=
    fun hh => hbh1 (List.append_eq_nil.mp hh).1
  constructor
  · rw [parseDataRecord_firstRun IntelHex.initSt 256 b1 (by omega) (by omega) hb1 rfl rfl hne1]
    simp only [PRes.bind]
    rw [parseDataRecord_cases _ 260 b2 (by omega) (by omega) hb2 hbh1]
    simp only [parsedFields]
    norm_num [h1, h2]
    rw [parseEofRecord_run _ hbh12]
    simp [IntelHex.initSt,
      show format08X (0 + 256) = ['0', '0', '0', '0', '0', '1', '0', '0'] from rfl]
  · rw [parseDataRecord_firstRun IntelHex.initSt 260 b2 (by omega) (by omega) hb2 rfl rfl hne2]
    simp only [PRes.bind]
    rw [parseDataRecord_cases _ 256 b1 (by omega) (by omega) hb1 hbh2]
    simp only [parsedFields]
    norm_num [h1, h2]
    rw [parseEofRecord_run _ hbh12]
    simp [IntelHex.initSt,
      show format08X (0 + 256) = ['0', '0', '0', '0', '0', '1', '0', '0'] from rfl]

/-- Witness for C4 at the concrete payloads `01 02 03 04` and `05 06 07 08`. -/
theorem claim_C4_accumulation_merge_witness :
    ((IntelHex.parseDataRecord (mkDataRecord 256 [1, 2, 3, 4]) IntelHex.initSt).bind
        (IntelHex.parseDataRecord (mkDataRecord 260 [5, 6, 7, 8]))).bind
        (IntelHex.parseEofRecord eofRec) =
      .ok { IntelHex.initSt with
            address := ['0', '0', '0', '0'], checksum := ['F', 'F'],
            end_of_file_reached := true,
            segments := [⟨['0', '0', '0', '0', '0', '1', '0', '0'],
              bytesToHex [1, 2, 3, 4] ++ bytesToHex [5, 6, 7, 8]⟩] } ∧
    ((IntelHex.parseDataRecord (mkDataRecord 260 [5, 6, 7, 8]) IntelHex.initSt).bind
        (IntelHex.parseDataRecord (mkDataRecord 256 [1, 2, 3, 4]))).bind
        (IntelHex.parseEofRecord eofRec) =
      .ok { IntelHex.initSt with
            address := ['0', '0', '0', '0'], checksum := ['F', 'F'],
            end_of_file_reached := true,
            segments := [⟨['0', '0', '0', '0', '0', '1', '0', '0'],
              bytesToHex [1, 2, 3, 4] ++ bytesToHex [5, 6, 7, 8]⟩] } :=
  claim_C4_accumulation_merge [1, 2, 3, 4] [5, 6, 7, 8]
    (by decide) (by decide) (by decide) (by decide)

/-- Claim C6, counterexample: the records at 0x100 (4 bytes) and 0x102
(4 bytes) abut the run in neither direction (0x102 + 4 ≠ 0x100 and
0x100 + 4 ≠ 0x102), yet the parse fails with the duplicate-data
`FileCorruptedError`, not with the not-implemented gap error the claim
(`UnsupportedGap`) names for every non-abutting pair. -/
theorem claim_C6_counterexample :
    IntelHex.parseRaises "\n".toList
        ":0401000001020304F1\n:0401020001020304EF\n:00000001FF".toList =
      some (.fileCorrupted "More than one data is stored on same address") ∧
    0x102 + 4 ≠ 0x100 ∧ 0x100 + 4 ≠ 0x102 := by
  refine ⟨by rfl, by norm_num, by norm_num⟩

/-- Claim C6 (amended): while a run is in progress, a well-formed data record
that abuts it in neither direction is never merged: when its address range is
strictly disjoint from the run (`record_address + record_length < run_start`
or `run_start + collected < record_address`) the handler raises the
not-implemented gap error (`UnsupportedGap`), and when it overlaps the run it
raises `FileCorruptedError('More than one data is stored on same address')`. -/
theorem claim_C6_gap_rejection (st : IntelHex.St) (addr : Nat) (payload : List Nat)
    (haddr : addr < 65536) (hlen : payload.length < 256) (hb : ∀ b ∈ payload, b < 256)
    (hrun : st.segment_data ≠ []) :
    ((addr + payload.length < st.lower_address ∨
        st.lower_address + st.data_collected < addr) →
      IntelHex.parseDataRecord (mkDataRecord addr payload) st =
        .err (.notImplemented "TODO: Yet to be implemented") (parsedFields st addr payload)) ∧
    (st.lower_address < addr + payload.length →
      addr < st.lower_address + st.data_collected →
      IntelHex.parseDataRecord (mkDataRecord addr payload) st =
        .err (.fileCorrupted "More than one data is stored on same address")
          (parsedFields st addr payload)) := by
  constructor
  · rintro (hgap | hgap)
    · rw [parseDataRecord_cases st addr payload haddr hlen hb hrun,
        if_neg (by omega), if_neg (by omega), if_pos hgap]
    · rw [parseDataRecord_cases st addr payload haddr hlen hb hrun,
        if_neg (by omega), if_neg (by omega), if_neg (by omega), if_pos hgap]
  · intro hov1 hov2
    rw [parseDataRecord_cases st addr payload haddr hlen hb hrun,
      if_neg (by omega), if_neg (by omega), if_neg (by omega), if_neg (by omega)]

/-- A state with a run in progress at 0x100, 4 bytes collected: the context of
the spec's gap-rejection scenario. -/
def c6RunSt : IntelHex.St :=
  { IntelHex.initSt with segment_data := ['0', '1'], lower_address := 0x100,
                         data_collected := 4 }

/-- Witness for C6 (amended) at the spec's own gap scenario (run at 0x100 with
4 bytes collected, record at 0x200) and at an overlapping record at 0x102. -/
theorem claim_C6_gap_rejection_witness :
    IntelHex.parseDataRecord (mkDataRecord 0x200 [1, 2, 3, 4]) c6RunSt =
      .err (.notImplemented "TODO: Yet to be implemented")
        (parsedFields c6RunSt 0x200 [1, 2, 3, 4]) ∧
    IntelHex.parseDataRecord (mkDataRecord 0x102 [1, 2, 3, 4]) c6RunSt =
      .err (.fileCorrupted "More than one data is stored on same address")
        (parsedFields c6RunSt 0x102 [1, 2, 3, 4]) :=
  ⟨(claim_C6_gap_rejection c6RunSt 0x200 [1, 2, 3, 4] (by decide) (by decide) (by decide)
      (by decide)).1 (by norm_num [c6RunSt, IntelHex.initSt]),
   (claim_C6_gap_rejection c6RunSt 0x102 [1, 2, 3, 4] (by decide) (by decide) (by decide)
      (by decide)).2 (by norm_num [c6RunSt, IntelHex.initSt])
      (by norm_num [c6RunSt, IntelHex.initSt])⟩

/-- Claim C2: checksum round-trip. For a record body given as hex byte pairs,
the checksum byte `_calculate_checksum` renders equals
`((sum of the body bytes XOR 0xFF) + 1) mod 256`; the record formed by
prefixing `':'` and appending that checksum passes `_verify_checksum`; and on
any all-pairs record (body plus checksum) `_verify_checksum` accepts exactly
when the sum of all decoded bytes is 0 modulo 256. -/
theorem claim_C2_checksum_roundtrip (bs cs : List Nat)
    (hbs : ∀ b ∈ bs, b < 256) (hcs : ∀ b ∈ cs, b < 256) :
    IntelHex.calculateChecksum (bytesToHex bs) =
      some (byteToHex2 ((((bs.foldl (· + ·) 0) ^^^ 0xFF) + 1) % 256)) ∧
    IntelHex.verifyChecksum (':' :: (bytesToHex bs ++
        byteToHex2 ((((bs.foldl (· + ·) 0) ^^^ 0xFF) + 1) % 256))) = some true ∧
    IntelHex.verifyChecksum (':' :: bytesToHex cs) =
      some (decide ((cs.foldl (· + ·) 0) % 256 = 0)) :=
  ⟨calculateChecksum_bytes hbs, verifyChecksum_roundTrip hbs, verifyChecksum_bytes hcs⟩

/-- Witness for C2 at the body of the record `:0401000001020304F1` and the
full decoded bytes of the end-of-file record `:00000001FF`. -/
theorem claim_C2_checksum_roundtrip_witness :
    IntelHex.calculateChecksum (bytesToHex [4, 1, 0, 0, 1, 2, 3, 4]) =
      some (byteToHex2 (((([4, 1, 0, 0, 1, 2, 3, 4].foldl (· + ·) 0) ^^^ 0xFF) + 1) % 256)) ∧
    IntelHex.verifyChecksum (':' :: (bytesToHex [4, 1, 0, 0, 1, 2, 3, 4] ++
        byteToHex2 (((([4, 1, 0, 0, 1, 2, 3, 4].foldl (· + ·) 0) ^^^ 0xFF) + 1) % 256))) =
      some true ∧
    IntelHex.verifyChecksum (':' :: bytesToHex [0, 0, 0, 1, 255]) =
      some (decide (([0, 0, 0, 1, 255].foldl (· + ·) 0) % 256 = 0)) :=
  claim_C2_checksum_roundtrip [4, 1, 0, 0, 1, 2, 3, 4] [0, 0, 0, 1, 255]
    (by decide) (by decide)

/-- Claim C1, counterexample: on the spec's exact document the parse does not
return a Segment list at all — the first record `:0200000404003E` fails
checksum verification (its body sums to 0x0A, so the checksum would have to be
0xF6, and 0x0A + 0x3E = 0x48 ≢ 0 mod 256), and the resulting
`FileCorruptedError` is not among the caught exception classes, so it
propagates out of `parse`. -/
theorem claim_C1_counterexample :
    IntelHex.parseSegments "\n".toList
        ":0200000404003E\n:0400000000112233CA\n:00000001FF".toList = none ∧
    IntelHex.parseRaises "\n".toList
        ":0200000404003E\n:0400000000112233CA\n:00000001FF".toList =
      some (.fileCorrupted "Checksum mismatch. Record is corrupted") := by
  exact ⟨by rfl, by rfl⟩

/-- Claim C1 (amended): with the two checksums corrected (`F6` for the
extended-linear-address record and `96` for the data record), the document
parses to exactly one Segment whose address is the 8 uppercase hex digits
`04000000` and whose data is the four bytes `00 11 22 33`. -/
theorem claim_C1_end_to_end :
    IntelHex.parseSegments "\n".toList
        ":020000040400F6\n:040000000011223396\n:00000001FF".toList =
      some [⟨"04000000".toList, "00112233".toList⟩] := by rfl

/-- Claim C3: the parse loop's `except` arms construct `FileCorruptedError`
without raising it, so parse returns normally instead of failing: a document
whose first line has the unknown record type `06` still returns the segments
of the remaining lines; a document whose data record has an undecodable
length field (`ZZ`) silently skips it and returns the empty list; and a
document with no end-of-file record at all returns successfully. -/
theorem claim_C3_error_swallowing :
    IntelHex.parseSegments "\n".toList
        ":00000006FA\n:0401000001020304F1\n:00000001FF".toList =
      some [⟨"00000100".toList, "01020304".toList⟩] ∧
    IntelHex.parseSegments "\n".toList
        ":ZZ00000001020304F1\n:00000001FF".toList = some [] ∧
    IntelHex.parseSegments "\n".toList ":0401000001020304F1".toList = some [] := by
  exact ⟨by rfl, by rfl, by rfl⟩

/-- Claim C5: start-address duplicate handling. For type 03 a second record
with a payload *identical* to the first still raises (the stored value is the
integer `(int(data[:4],16) << 4) + int(data[4:],16)` while the comparison
`self.start_address == self.data` is against the payload string, so it is
always false); for type 05 an identical second record is tolerated and only a
differing one raises; a differing second type-03 record also raises. -/
theorem claim_C5_duplicate_start_address :
    IntelHex.parseRaises "\n".toList
        ":0400000312345678E5\n:0400000312345678E5\n:00000001FF".toList =
      some (.fileCorrupted "More than one start address found") ∧
    IntelHex.parseSegments "\n".toList
        ":0400000512345678E3\n:0400000512345678E3\n:00000001FF".toList =
      some [⟨"12345678".toList, []⟩] ∧
    IntelHex.parseRaises "\n".toList
        ":0400000512345678E3\n:04000005ABCDEF018F\n:00000001FF".toList =
      some (.fileCorrupted "More than one start address found") ∧
    IntelHex.parseRaises "\n".toList
        ":0400000312345678E5\n:04000003ABCDEF0191\n:00000001FF".toList =
      some (.fileCorrupted "More than one start address found") := by
  exact ⟨by rfl, by rfl, by rfl, by rfl⟩

theorem splitOnSepAux_ne_nil (sep : List Char) :
    ∀ fuel acc l, splitOnSepAux sep fuel acc l ≠ [] := by
  intro fuel
  induction fuel with
  | zero => intro acc l; simp [splitOnSepAux]
  | succ fuel ih =>
    intro acc l
    match l with
    | [] => simp [splitOnSepAux]
    | c :: rest =>
      rw [splitOnSepAux]
      by_cases h : matchesAt sep (c :: rest)
      · simp [h]
      · simp only [if_neg h]
        exact ih _ _

theorem splitOnSep_ne_nil (sep l : List Char) : splitOnSep sep l ≠ [] :=
  splitOnSepAux_ne_nil sep _ _ _

/-- Claim C7: the Motorola S-Record codec's parse never produces a Segment
list, let alone the one Intel HEX produces: for every document its first loop
iteration evaluates `SRecordStructure.START_CODE`, a member the enum does not
declare, and the resulting `AttributeError` (uncaught) propagates out of
`parse`; Intel HEX meanwhile parses e.g. `:00000001FF` to the empty Segment
list, so the two codecs do not agree on any document. -/
theorem claim_C7_motorola_diverges :
    (∀ t document : List Char,
      MotorolaSRecord.parse t document = .err .attributeError IntelHex.initSt) ∧
    IntelHex.parseSegments "\n".toList ":00000001FF".toList = some [] := by
  constructor
  · intro t document
    rw [MotorolaSRecord.parse]
    rcases hsplit : splitOnSep t document with _ | ⟨r, rest⟩
    · exact absurd hsplit (splitOnSep_ne_nil t document)
    · rfl
  · rfl

/-- Witness for C7 at the line termination `"\n"` and the single-record
document `:00000001FF`. -/
theorem claim_C7_motorola_diverges_witness :
    MotorolaSRecord.parse "\n".toList ":00000001FF".toList =
      .err .attributeError IntelHex.initSt :=
  claim_C7_motorola_diverges.1 "\n".toList ":00000001FF".toList

/-- Claim C10: every construction of a `MotorolaSRecord` or a `SmartCard`
fails. Both subclass initialisers forward `line_termination`, `file_path` and
`segments` to `Format.__init__`, which declares only `line_termination`, so
the three-positional-argument call raises `TypeError` for every argument
combination, and no parse, compose or merge of these two formats is ever
reachable through a constructed instance. -/
theorem claim_C10_constructors_fail :
    (∀ lt fp segs : PyObj, MotorolaSRecord.init lt fp segs = .error .typeError) ∧
    (∀ lt fp segs : PyObj, SmartCard.init lt fp segs = .error .typeError) :=
  ⟨fun _ _ _ => rfl, fun _ _ _ => rfl⟩

/-- Witness for C10 at the default argument values
(`'\n'`, `None`, `None`). -/
theorem claim_C10_constructors_fail_witness :
    MotorolaSRecord.init (.pyStr "\n".toList) .pyNone .pyNone = .error .typeError ∧
    SmartCard.init (.pyStr "\n".toList) .pyNone .pyNone = .error .typeError :=
  ⟨claim_C10_constructors_fail.1 _ _ _, claim_C10_constructors_fail.2 _ _ _⟩

theorem findSub_slashes_none (l : List Char) (h : '/' ∉ l) : findSub ['/', '/'] l = none := by
  induction l with
  | nil => rfl
  | cons c rest ih =>
    have hc : c ≠ '/' := fun hh => h (by simp [hh])
    have hm : matchesAt ['/', '/'] (c :: rest) = false := by
      simp [matchesAt, List.take_succ_cons, hc]
    rw [findSub, if_neg (by simp [hm]), ih (fun hmem => h (List.mem_cons_of_mem _ hmem))]
    rfl

/-- Claim C9: a smart-card script line with class byte `00`, INS byte `04`
and exactly 4 data bytes, processed while no start address has been recorded
yet, records the payload as the program entry point (`start_address`) and
immediately appends a zero-length Segment whose address string is the 4-byte
payload. -/
theorem claim_C9_set_start_command (st : SmartCard.St) (d : List Char)
    (hstart : st.start_address = []) (hlen : d.length = 8)
    (hsp : ' ' ∉ d) (hsl : '/' ∉ d) :
    SmartCard.processLine ("00 04 00 00 04 ".toList ++ d) st =
      .ok { st with p1 := ['0', '0'], p2 := ['0', '0'], le_or_lc := ['0', '4'],
                    data_length := 4, data := d, start_address := d,
                    segments := st.segments ++ [⟨d, []⟩] } := by
  have h0 : ('/' : Char) ∉ "00 04 00 00 04 ".toList := by decide
  have hfind : findSub ['/', '/'] ("00 04 00 00 04 ".toList ++ d) = none := by
    apply findSub_slashes_none
    intro hm
    rcases List.mem_append.mp hm with hm | hm
    · exact h0 hm
    · exact hsl hm
  have hfilter : ("00 04 00 00 04 ".toList ++ d).filter (· != ' ') =
      "0004000004".toList ++ d := by
    rw [List.filter_append,
      show "00 04 00 00 04 ".toList.filter (· != ' ') = "0004000004".toList from by decide,
      List.filter_eq_self.mpr (by
        intro a ha
        simp only [bne_iff_ne, ne_eq]
        intro hh
        subst hh
        exact hsp ha)]
  have e1 : pySlice ("0004000004".toList ++ d) 0 2 = ['0', '0'] := rfl
  have e2 : pySlice ("0004000004".toList ++ d) 2 4 = ['0', '4'] := rfl
  have e3 : pySlice ("0004000004".toList ++ d) 4 6 = ['0', '0'] := rfl
  have e4 : pySlice ("0004000004".toList ++ d) 6 8 = ['0', '0'] := rfl
  have e5 : pySlice ("0004000004".toList ++ d) 8 10 = ['0', '4'] := rfl
  have e6 : ("0004000004".toList ++ d).drop 10 = d := rfl
  have e7 : hexVal ['0', '4'] = some 4 := rfl
  have hdne : d ≠ [] := List.length_pos.mp (by omega)
  simp only [SmartCard.processLine, hfind, hfilter, e1, e2, e3, e4, e5, e6,
    SmartCard.parseSetStart, SmartCard.parseBase, PRes.bind, e7]
  simp [hlen, hstart, hdne]

/-- Witness for C9 on a fresh `SmartCard` state and the payload `AABBCCDD`
(the line `00 04 00 00 04 AABBCCDD`). -/
theorem claim_C9_set_start_command_witness :
    SmartCard.processLine ("00 04 00 00 04 ".toList ++ "AABBCCDD".toList) SmartCard.initSt =
      .ok { SmartCard.initSt with
            p1 := ['0', '0'], p2 := ['0', '0'], le_or_lc := ['0', '4'],
            data_length := 4, data := "AABBCCDD".toList,
            start_address := "AABBCCDD".toList,
            segments := SmartCard.initSt.segments ++ [⟨"AABBCCDD".toList, []⟩] } :=
  claim_C9_set_start_command SmartCard.initSt "AABBCCDD".toList
    (by decide) (by decide) (by decide) (by decide)

theorem padZero_length {k : Nat} {l : List Char} (h : l.length ≤ k) :
    (padZero k l).length = k := by
  simp [padZero]
  omega

theorem exists_four_of_length {l : List Char} (h : l.length = 4) :
    ∃ a b c d, l = [a, b, c, d] := by
  rcases l with _ | ⟨a, l⟩
  · simp at h
  rcases l with _ | ⟨b, l⟩
  · simp at h
  rcases l with _ | ⟨c, l⟩
  · simp at h
  rcases l with _ | ⟨d, l⟩
  · simp at h
  rcases l with _ | ⟨e, l⟩
  · exact ⟨a, b, c, d, rfl⟩
  · simp at h

theorem hex4_of_lt {n : Nat} (h : n < 65536) : ∃ a b c d, hex4 n = [a, b, c, d] := by
  apply exists_four_of_length
  apply padZero_length
  exact toHexUpper_length_le 4 (by omega) n (by norm_num; omega)

theorem hex4_of_ge {n : Nat} (h : 65536 ≤ n) : ∃ c cs, hex4 n = c :: cs ∧ c ≠ '0' := by
  obtain ⟨c, cs, hcs, hc0⟩ := toHexUpper_head_ne_zero n (by omega)
  refine ⟨c, cs, ?_, hc0⟩
  rw [hex4, padZero, hcs]
  have hlen : ¬((toHexUpper n).length ≤ 4) := by
    intro hle
    have := lt_of_toHexUpper_length_le n 4 hle
    norm_num at this
    omega
  rw [hcs] at hlen
  have : 4 - (c :: cs).length = 0 := by
    simp at hlen ⊢
    omega
  rw [this]
  rfl

theorem extLine_ne_eofRec (address ck t : List Char) :
    ':' :: (['0', '2', '0', '0', '0', '0', '0', '4'] ++ address ++ ck ++ t) ≠ eofRec := by
  intro h
  simp [eofRec] at h

theorem startLine_ne_eofRec (address ck t : List Char) :
    ':' :: (['0', '4', '0', '0', '0', '0', '0', '5'] ++ address ++ ck ++ t) ≠ eofRec := by
  intro h
  simp [eofRec] at h

theorem dataLine_ne_eofRec (dl lower : Nat) (hdl : dl ≤ 16) (data ck t : List Char) :
    ':' :: (byteToHex2 dl ++ hex4 lower ++ ['0', '0'] ++ data ++ ck ++ t) ≠ eofRec := by
  intro h
  have hdl256 : dl < 256 := by omega
  rw [byteToHex2_eq hdl256] at h
  by_cases hdl0 : dl = 0
  · subst hdl0
    rw [show hexDigitChar (0 / 16) = '0' from rfl] at h
    by_cases h16 : lower < 65536
    · obtain ⟨a, b, c, d, habcd⟩ := hex4_of_lt h16
      rw [habcd] at h
      simp [eofRec] at h
    · obtain ⟨c, cs, hcs, hc0⟩ := hex4_of_ge (n := lower) (by omega)
      rw [hcs] at h
      simp [eofRec] at h
      exact hc0 h.1
  · have hdig : ∀ m : Fin 16, (hexDigitChar m.val = '0') ↔ m.val = 0 := by decide
    simp [eofRec] at h
    have hq : dl / 16 = 0 := (hdig ⟨dl / 16, by omega⟩).mp h.1
    have hr : dl % 16 = 0 := (hdig ⟨dl % 16, by omega⟩).mp h.2.1
    omega

/-- Every line the compose direction emits before the end-of-file record:
it carries its line termination as a suffix and is not the canonical
end-of-file line. -/
def lineOK (t l : List Char) : Prop := (∃ b, l = b ++ t) ∧ l ≠ eofRec

theorem chunksOfAux_mem_length (n : Nat) :
    ∀ fuel l c, c ∈ chunksOfAux n fuel l → c.length ≤ n := by
  intro fuel
  induction fuel with
  | zero => intro l c hc; simp [chunksOfAux] at hc
  | succ fuel ih =>
    intro l c hc
    match l with
    | [] => simp [chunksOfAux] at hc
    | x :: xs =>
      simp only [chunksOfAux] at hc
      rcases List.mem_cons.mp hc with rfl | hc
      · rw [List.length_take]
        exact Nat.min_le_left _ _
      · exact ih _ _ hc

theorem chunksOf_mem_length {n : Nat} {l c : List Char} (hc : c ∈ chunksOf n l) :
    c.length ≤ n :=
  chunksOfAux_mem_length n _ _ _ hc

theorem composeDataRecord_inv {t c : List Char} {st st' : IntelHex.CSt}
    (h : IntelHex.composeDataRecord t c st = some st') (hc : c.length ≤ 32)
    (hinv : ∀ l ∈ st.lines, lineOK t l) : ∀ l ∈ st'.lines, lineOK t l := by
  rw [IntelHex.composeDataRecord] at h
  cases hck : IntelHex.calculateChecksum
      (byteToHex2 (c.length / 2) ++ hex4 st.lower_address ++ ['0', '0'] ++ c) with
  | none => rw [hck] at h; cases h
  | some ck =>
    rw [hck] at h
    injection h with h
    subst h
    intro l hl
    simp only [List.mem_append, List.mem_singleton] at hl
    rcases hl with hl | rfl
    · exact hinv l hl
    · constructor
      · exact ⟨':' :: (byteToHex2 (c.length / 2) ++ hex4 st.lower_address ++ ['0', '0'] ++ c
          ++ ck), rfl⟩
      · exact dataLine_ne_eofRec (c.length / 2) st.lower_address (by omega) c ck t

theorem composeExtLinearRecord_inv {t address : List Char} {st st' : IntelHex.CSt}
    (h : IntelHex.composeExtLinearRecord t address st = some st')
    (hinv : ∀ l ∈ st.lines, lineOK t l) : ∀ l ∈ st'.lines, lineOK t l := by
  rw [IntelHex.composeExtLinearRecord] at h
  cases hck : IntelHex.calculateChecksum (['0', '2', '0', '0', '0', '0', '0', '4'] ++ address) with
  | none => rw [hck] at h; cases h
  | some ck =>
    rw [hck] at h
    injection h with h
    subst h
    intro l hl
    simp only [List.mem_append, List.mem_singleton] at hl
    rcases hl with hl | rfl
    · exact hinv l hl
    · exact ⟨⟨':' :: (['0', '2', '0', '0', '0', '0', '0', '4'] ++ address ++ ck), rfl⟩,
        extLine_ne_eofRec address ck t⟩

theorem composeStartLinearRecord_inv {t address : List Char} {st st' : IntelHex.CSt}
    (h : IntelHex.composeStartLinearRecord t address st = some st')
    (hinv : ∀ l ∈ st.lines, lineOK t l) : ∀ l ∈ st'.lines, lineOK t l := by
  rw [IntelHex.composeStartLinearRecord] at h
  cases hck : IntelHex.calculateChecksum (['0', '4', '0', '0', '0', '0', '0', '5'] ++ address) with
  | none => rw [hck] at h; cases h
  | some ck =>
    rw [hck] at h
    injection h with h
    subst h
    intro l hl
    simp only [List.mem_append, List.mem_singleton] at hl
    rcases hl with hl | rfl
    · exact hinv l hl
    · exact ⟨⟨':' :: (['0', '4', '0', '0', '0', '0', '0', '5'] ++ address ++ ck), rfl⟩,
        startLine_ne_eofRec address ck t⟩

theorem composeDataChunks_inv {t : List Char} :
    ∀ (cs : List (List Char)) (st st' : IntelHex.CSt),
      IntelHex.composeDataChunks t cs st = some st' → (∀ c ∈ cs, c.length ≤ 32) →
      (∀ l ∈ st.lines, lineOK t l) → ∀ l ∈ st'.lines, lineOK t l := by
  intro cs
  induction cs with
  | nil =>
    intro st st' h _ hinv
    rw [IntelHex.composeDataChunks] at h
    injection h with h
    subst h
    exact hinv
  | cons c cs ih =>
    intro st st' h hlen hinv
    rw [IntelHex.composeDataChunks] at h
    cases hstep : IntelHex.composeDataRecord t c st with
    | none => rw [hstep] at h; cases h
    | some st1 =>
      rw [hstep] at h
      exact ih st1 st' h (fun x hx => hlen x (List.mem_cons_of_mem _ hx))
        (composeDataRecord_inv hstep (hlen c (by simp)) hinv)

theorem composeSegment_inv {t : List Char} {seg : Seg} {st st' : IntelHex.CSt}
    (h : IntelHex.composeSegment t seg st = some st')
    (hinv : ∀ l ∈ st.lines, lineOK t l) : ∀ l ∈ st'.lines, lineOK t l := by
  rw [IntelHex.composeSegment] at h
  split at h
  · exact composeStartLinearRecord_inv h hinv
  · split at h
    · simp at h
    · next addr haddr =>
      dsimp only [] at h
      cases hext : IntelHex.composeExtLinearRecord t (hex4 (addr >>> 16))
          { st with lower_address := addr &&& 0xFFFF } with
      | none => rw [hext] at h; simp at h
      | some st1 =>
        rw [hext] at h
        exact composeDataChunks_inv _ _ _ h (fun c hc => chunksOf_mem_length hc)
          (composeExtLinearRecord_inv hext hinv)

theorem composeSegs_inv {t : List Char} :
    ∀ (segs : List Seg) (st st' : IntelHex.CSt),
      IntelHex.composeSegs t segs st = some st' →
      (∀ l ∈ st.lines, lineOK t l) → ∀ l ∈ st'.lines, lineOK t l := by
  intro segs
  induction segs with
  | nil =>
    intro st st' h hinv
    rw [IntelHex.composeSegs] at h
    injection h with h
    subst h
    exact hinv
  | cons seg segs ih =>
    intro st st' h hinv
    rw [IntelHex.composeSegs] at h
    cases hstep : IntelHex.composeSegment t seg st with
    | none => rw [hstep] at h; cases h
    | some st1 =>
      rw [hstep] at h
      exact ih st1 st' h (composeSegment_inv hstep hinv)

/-- Does `l` end with the suffix `t`? (For "each line includes its trailing
terminator".) -/
def hasSuffixT (t l : List Char) : Bool := l.drop (l.length - t.length) == t

theorem hasSuffixT_append (t b : List Char) : hasSuffixT t (b ++ t) = true := by
  rw [hasSuffixT, List.length_append, Nat.add_sub_cancel, List.drop_left]
  exact beq_self_eq_true t

/-- Claim C8: for every Segment list on which compose succeeds, the produced
line sequence ends with exactly one end-of-file record — the canonical
`:00000001FF`, whose checksum is computed as `FF` — and that final line
carries no trailing line terminator while every other emitted record line
includes its terminator as a suffix. -/
theorem claim_C8_compose_eof (t : List Char) (segments : List Seg) (lines : List (List Char))
    (h : IntelHex.compose t segments = some lines) :
    lines.getLast? = some eofRec ∧
    (lines.dropLast.all fun l => hasSuffixT t l && !(l == eofRec)) = true ∧
    lines.count eofRec = 1 ∧
    IntelHex.calculateChecksum ['0', '0', '0', '0', '0', '0', '0', '1'] = some ['F', 'F'] := by
  rw [IntelHex.compose] at h
  cases hsegs : IntelHex.composeSegs t segments { lower_address := 0, lines := [] } with
  | none => rw [hsegs] at h; cases h
  | some st =>
    rw [hsegs] at h
    dsimp only [] at h
    have heof : IntelHex.composeEofRecord st = some { st with lines := st.lines ++ [eofRec] } := by
      rw [IntelHex.composeEofRecord,
        show IntelHex.calculateChecksum ['0', '0', '0', '0', '0', '0', '0', '1'] =
          some ['F', 'F'] from rfl]
      rfl
    rw [heof] at h
    dsimp only [] at h
    simp only [Option.some.injEq] at h
    subst h
    have hinv : ∀ l ∈ st.lines, lineOK t l :=
      composeSegs_inv _ _ _ hsegs (by intro l hl; simp at hl)
    refine ⟨?_, ?_, ?_, rfl⟩
    · exact List.getLast?_concat _
    · rw [List.dropLast_concat, List.all_eq_true]
      intro l hl
      obtain ⟨⟨b, hb⟩, hne⟩ := hinv l hl
      rw [Bool.and_eq_true, hb, hasSuffixT_append]
      exact ⟨rfl, by simp [← hb]; exact hne⟩
    · rw [List.count_append]
      rw [List.count_eq_zero.mpr (fun hmem => (hinv eofRec hmem).2 rfl)]
      rfl

/-- Witness for C8 at the terminator `"\n"` and the single Segment
`{address: "00000100", data: "AABB"}`, whose composed lines are
`:020000040000FA`, `:02010000AABB98` and the unterminated `:00000001FF`. -/
theorem claim_C8_compose_eof_witness :
    ([":020000040000FA\n".toList, ":02010000AABB98\n".toList,
        ":00000001FF".toList] : List (List Char)).getLast? = some eofRec ∧
    (([":020000040000FA\n".toList, ":02010000AABB98\n".toList,
        ":00000001FF".toList] : List (List Char)).dropLast.all
      fun l => hasSuffixT "\n".toList l && !(l == eofRec)) = true ∧
    ([":020000040000FA\n".toList, ":02010000AABB98\n".toList,
        ":00000001FF".toList] : List (List Char)).count eofRec = 1 ∧
    IntelHex.calculateChecksum ['0', '0', '0', '0', '0', '0', '0', '1'] = some ['F', 'F'] :=
  claim_C8_compose_eof "\n".toList [⟨"00000100".toList, "AABB".toList⟩]
    [":020000040000FA\n".toList, ":02010000AABB98\n".toList, ":00000001FF".toList]
    (by rfl)
